import Mathlib

/-!
# Operator console of the libaktualizr demo application

A shallow embedding of `demo-app/src/main.cc`: the event handler `process_event`, the campaign
dialogue (`campaign_selection`, `campaignSelection`) and the body of the command loop of `main`.

Conventions of the embedding.

* The globals of the translation unit (`current_updates`, `custom_manifest`,
  `campaign_id_selected`), the function-local static map `progress`, the two standard streams
  and the sequence of calls made on the `Aktualizr` object are the fields of one record, `State`.
  Every function of the source is a function on `State`.
* `std::string` is `String`; `unsigned int` is `Nat` (the program never does arithmetic on it);
  `int` is `Int`, with the limits `INT_MIN`/`INT_MAX` applied where the extraction operator
  saturates and the conversion to `std::size_t` written out as `% 2 ^ 64`.
* `std::map` is an association list without duplicate keys, reached only through
  `Map.find`, `Map.assign` and `Map.erase`.
* `std::cin` is a list of unread characters with the `eofbit` and `failbit` flags.  `getline` and
  `operator>>(int&)` follow the C++11 library rules for the "C" locale.
* The handler runs on a thread of the agent.  The embedding is sequential: an interleaving of
  commands and events is a sequence of `dispatch` and `process_event` steps.
* The loop of `campaign_selection` need not terminate, so it takes a fuel argument and returns
  `none` when the fuel runs out.
* `campaignSelection` is declared `int` and contains no `return` statement.  Control that
  reaches its closing brace has undefined behaviour, so a call of it ends in an `Outcome` that
  says how far it got; it never ends in `Outcome.returned`.  In `dispatch` a call that does not
  return gives `none`.
-/

namespace DemoApp

/-! ## Data -/

/-- The part of `Uptane::Target` the console reads: the accessors `sha256Hash()` and
`filename()`. -/
structure Target where
  sha256Hash : String
  filename : String
deriving DecidableEq, Repr

/-- The fields of `campaign::Campaign` the console prints. -/
structure Campaign where
  id : String
  name : String
  description : String
deriving DecidableEq, Repr

/-- The second argument of `Aktualizr::CampaignControl`; the console only ever passes
`campaign::Cmd::Accept`. -/
inductive Cmd where
  | Accept
  | Decline
  | Postpone
deriving DecidableEq, Repr

/-- An event delivered to the signal handler.  The library sets `variant` from the dynamic type
of the event, so the test on `variant` followed by `dynamic_cast` of the source is a case
distinction on the constructor; `Other` stands for every event type the handler does not name
and carries its `variant` string. -/
inductive Event where
  | DownloadProgressReport (target : Target) (description : String) (progress : Nat)
  | DownloadTargetComplete (update : Target) (success : Bool)
  | InstallStarted (serial : String)
  | InstallTargetComplete (serial : String) (success : Bool)
  | UpdateCheckComplete (updates : List Target)
  | Other (variant : String)
deriving DecidableEq, Repr

/-- A `std::map` with `std::string` keys. -/
abbrev Map (β : Type) := List (String × β)

namespace Map

/-- The lookup `m.find(k)`: `none` is `m.end()`. -/
def find {β : Type} (k : String) : Map β → Option β
  | [] => none
  | (k', v) :: m => if k' = k then some v else find k m

/-- The assignment `m[k] = v`: overwrites the entry of `k` or creates it. -/
def assign {β : Type} (k : String) (v : β) : Map β → Map β
  | [] => [(k, v)]
  | (k', v') :: m => if k' = k then (k, v) :: m else (k', v') :: assign k v m

/-- The removal `m.erase(k)`. -/
def erase {β : Type} (k : String) : Map β → Map β
  | [] => []
  | (k', v') :: m => if k' = k then erase k m else (k', v') :: erase k m

end Map

/-- A call made on the `Aktualizr` object, with its arguments. -/
inductive AgentCall where
  | SendDeviceData
  | CheckUpdates
  | Download (updates : List Target)
  | Install (updates : List Target)
  | CampaignCheck
  | Pause
  | Resume
  | Abort
  | UptaneCycle
  | CampaignControl (campaign_id : String) (cmd : Cmd)
  | SendManifest (custom : Map String)
deriving DecidableEq, Repr

/-- The state of `std::cin`: the characters not yet read and two of the `iostate` flags. -/
structure IStream where
  buf : List Char
  eofbit : Bool
  failbit : Bool
deriving DecidableEq, Repr

/-- The state of the process as far as the console is concerned. -/
structure State where
  /-- The global `current_updates`. -/
  current_updates : List Target
  /-- The static local `progress` of `process_event`. -/
  progress : Map Nat
  /-- The global `campaign_id_selected`. -/
  campaign_id_selected : String
  /-- The global `custom_manifest`, a JSON object with string members. -/
  custom_manifest : Map String
  /-- The stream `std::cin`. -/
  cin : IStream
  /-- Everything written to `std::cout` so far. -/
  cout : String
  /-- The calls made on the agent so far, oldest first. -/
  calls : List AgentCall
  /-- The campaign list to which the future returned by `CampaignCheck()` resolves. -/
  campaign_check_result : List Campaign
deriving DecidableEq, Repr

/-- How a call of `campaignSelection` ends. -/
inductive Outcome where
  /-- A `return` statement was executed in the given state. -/
  | returned (s : State)
  /-- Control reached the closing brace of the function, declared `int`, in the given state
  without meeting a `return` statement: the behaviour is undefined from here on. -/
  | no_return (s : State)
  /-- The vector `campaign_id_list` was indexed outside its bounds in the given state: the
  behaviour is undefined from here on. -/
  | bad_index (s : State)
  /-- The loop of `campaign_selection` was still running when the fuel ran out. -/
  | out_of_fuel
deriving DecidableEq, Repr

/-! ## The standard input stream -/

/-- The predicate `std::isspace` in the "C" locale. -/
def isspace (c : Char) : Bool :=
  c = ' ' || c = '\t' || c = '\n' || c = '\x0b' || c = '\x0c' || c = '\r'

/-- The predicate `std::isdigit`. -/
def isdigit (c : Char) : Bool :=
  decide (48 ≤ c.toNat) && decide (c.toNat ≤ 57)

/-- The largest value of `int`. -/
def INT_MAX : Int := 2147483647

/-- The smallest value of `int`. -/
def INT_MIN : Int := -2147483648

/-- The number denoted by a run of decimal digits. -/
def digits_value (ds : List Char) : Nat :=
  ds.foldl (fun acc c => 10 * acc + (c.toNat - 48)) 0

/-- The function `std::getline(is, str)`.  When the stream is not good the call sets `failbit`
and leaves `str` alone.  Otherwise `str` becomes the characters before the next newline, the
newline is consumed, and reaching the end of the input sets `eofbit`, together with `failbit`
when nothing at all was extracted. -/
def getline (is : IStream) (str : String) : IStream × String :=
  if is.eofbit || is.failbit then
    ({ is with failbit := true }, str)
  else
    let line := is.buf.takeWhile (fun c => c != '\n')
    match is.buf.dropWhile (fun c => c != '\n') with
    | _ :: rest => ({ is with buf := rest }, String.mk line)
    | [] => ({ buf := [], eofbit := true, failbit := line.isEmpty }, String.mk line)

/-- The formatted extraction `is >> value` for `int value` (C++11, decimal base, "C" locale).

* On a stream that is not good the sentry fails: `failbit` is set and `value` is untouched.
* Leading white space is skipped; running into the end of input there sets `eofbit` and
  `failbit` and leaves `value` untouched.
* An optional sign and the longest run of digits are consumed.  Without a digit the extraction
  fails: `value` becomes `0` and `failbit` is set.  A number outside the range of `int` stores
  the nearest limit and sets `failbit`.  Running into the end of input sets `eofbit`.

Nothing in the program ever clears the flags. -/
def extract_int (is : IStream) (value : Int) : IStream × Int :=
  if is.eofbit || is.failbit then
    ({ is with failbit := true }, value)
  else
    match is.buf.dropWhile isspace with
    | [] => ({ buf := [], eofbit := true, failbit := true }, value)
    | c :: cs =>
      let negative := decide (c = '-')
      let body := if c = '-' ∨ c = '+' then cs else c :: cs
      let ds := body.takeWhile isdigit
      let rest := body.dropWhile isdigit
      if ds.isEmpty then
        ({ buf := rest, eofbit := rest.isEmpty, failbit := true }, 0)
      else
        let v : Int := if negative then -(digits_value ds : Int) else (digits_value ds : Int)
        if v > INT_MAX then
          ({ buf := rest, eofbit := rest.isEmpty, failbit := true }, INT_MAX)
        else if v < INT_MIN then
          ({ buf := rest, eofbit := rest.isEmpty, failbit := true }, INT_MIN)
        else
          ({ buf := rest, eofbit := rest.isEmpty, failbit := false }, v)

/-! ## The event handler -/

/-- The function `process_event` (main.cc, lines 77-111). -/
def process_event (event : Event) (s : State) : State :=
  match event with
  | .DownloadProgressReport target _ progress_in =>
    let progress :=
      if Map.find target.sha256Hash s.progress = none then
        Map.assign target.sha256Hash 0 s.progress
      else s.progress
    let prev_progress := (Map.find target.sha256Hash progress).getD 0
    let new_progress := progress_in
    if new_progress > prev_progress then
      { s with
        progress := Map.assign target.sha256Hash new_progress progress
        cout := s.cout ++ "Download progress for file " ++ target.filename ++ ": "
          ++ toString new_progress ++ "%\n" }
    else
      { s with progress := progress }
  | .DownloadTargetComplete update success =>
    { s with
      cout := s.cout ++ "Download complete for file " ++ update.filename ++ ": "
        ++ (if success then "success" else "failure") ++ "\n"
      progress := Map.erase update.sha256Hash s.progress }
  | .InstallStarted serial =>
    { s with cout := s.cout ++ "Installation started for device " ++ serial ++ "\n" }
  | .InstallTargetComplete serial success =>
    { s with
      cout := s.cout ++ "Installation complete for device " ++ serial ++ ": "
        ++ (if success then "success" else "failure") ++ "\n" }
  | .UpdateCheckComplete updates =>
    { s with
      current_updates := updates
      cout := s.cout ++ toString updates.length ++ " updates available\n" }
  | .Other variant =>
    { s with cout := s.cout ++ "Received " ++ variant ++ " event\n" }

/-- The handler applied to a sequence of events, oldest first. -/
def process_events (events : List Event) (s : State) : State :=
  events.foldl (fun st e => process_event e st) s

/-! ## The campaign dialogue -/

/-- The condition `retVal < 1 || retVal > campaign_num_ids` of `campaign_selection`.  The second
comparison is between `int` and `std::size_t`, so `retVal` is converted to a 64-bit unsigned
value first. -/
def out_of_range (retVal : Int) (campaign_num_ids : Nat) : Bool :=
  decide (retVal < 1) || decide ((retVal % 2 ^ 64).toNat > campaign_num_ids)

/-- The `while` loop of `campaign_selection`, one unit of fuel per evaluation of its
condition. -/
def campaign_selection_loop (campaign_num_ids : Nat) : Nat → Int → State → Option (Int × State)
  | 0, _, _ => none
  | fuel + 1, retVal, s =>
    if out_of_range retVal campaign_num_ids then
      let r := extract_int s.cin retVal
      let s1 := { s with cin := r.1 }
      let s2 :=
        if out_of_range r.2 campaign_num_ids then
          { s1 with cout := s1.cout ++ "Enter index number from the selection\n" }
        else s1
      campaign_selection_loop campaign_num_ids fuel r.2 s2
    else
      some (retVal, s)

/-- The function `campaign_selection` (main.cc, lines 113-127). -/
def campaign_selection (fuel : Nat) (campaign_num_ids : Nat) (s : State) : Option (Int × State) :=
  campaign_selection_loop campaign_num_ids fuel 0
    { s with cout := s.cout ++ "Select the Campaign to Accept...\n:" }

/-- The body of the range-`for` of `campaignSelection`, on the triple of `count`, the output
stream and `campaign_id_list`. -/
def list_campaign (acc : Int × String × List String) (c : Campaign) : Int × String × List String :=
  let count := acc.1 + 1
  (count,
   acc.2.1 ++ toString count ++ ". " ++ c.name ++ "\n"
     ++ "--- " ++ c.id ++ "\n"
     ++ "--- " ++ c.description ++ "\n\n",
   acc.2.2 ++ [c.id])

/-- The function `campaignSelection` (main.cc, lines 130-156).  Neither branch of the source
ends in a `return` statement although the function is declared `int`: both end in
`Outcome.no_return`, carrying the state in which the closing brace is reached. -/
def campaignSelection (fuel : Nat) (campaign_list : List Campaign) (s : State) : Outcome :=
  if campaign_list.length < 1 then
    Outcome.no_return { s with cout := s.cout ++ "No Campaigns to Accept...\n" }
  else
    let listed := campaign_list.foldl list_campaign (0, s.cout ++ "--CAMPAIGNS FOUND--...\n", [])
    let campaign_id_list := listed.2.2
    match campaign_selection fuel campaign_id_list.length { s with cout := listed.2.1 } with
    | none => Outcome.out_of_fuel
    | some (campaign_index, s1) =>
      match campaign_id_list[((campaign_index - 1) % 2 ^ 64).toNat]? with
      | none => Outcome.bad_index s1
      | some id =>
        Outcome.no_return { s1 with
          campaign_id_selected := id
          cout := s1.cout ++ "Campaign Selected: " ++ id ++ "\n"
          calls := s1.calls ++ [AgentCall.CampaignControl id Cmd.Accept] }

/-! ## The command loop -/

/-- The function `boost::algorithm::to_lower` in the "C" locale: the letters `A` to `Z` are
replaced by `a` to `z`, every other character is kept. -/
def to_lower (input : String) : String :=
  String.mk (input.data.map Char.toLower)

/-- The string literals the command loop compares the input with. -/
def vocabulary : List String :=
  ["senddevicedata", "fetchmetadata", "fetchmeta", "checkupdates", "check", "download",
   "startdownload", "install", "uptaneinstall", "campaigncheck", "pause", "resume", "abort",
   "lucid", "uptanecycle", "campaignaccept", "sendmanifest"]

/-- The body of the `while` loop of `main` (main.cc, lines 182-249) for one line delivered by
`getline`.  The result is `none` when the body does not get back to the head of the loop: the
call of `campaignSelection` ends otherwise than by a `return`. -/
def dispatch (fuel : Nat) (line : String) (s : State) : Option State :=
  let buffer := to_lower line
  if buffer = "senddevicedata" then
    some { s with
      calls := s.calls ++ [AgentCall.SendDeviceData]
      cout := s.cout ++ "\n\nDevice Data Send Test\n\n" }
  else if buffer = "fetchmetadata" ∨ buffer = "fetchmeta" ∨ buffer = "checkupdates"
      ∨ buffer = "check" then
    some { s with calls := s.calls ++ [AgentCall.CheckUpdates] }
  else if buffer = "download" ∨ buffer = "startdownload" then
    some { s with calls := s.calls ++ [AgentCall.Download s.current_updates] }
  else if buffer = "install" ∨ buffer = "uptaneinstall" then
    some { s with
      calls := s.calls ++ [AgentCall.Install s.current_updates]
      current_updates := [] }
  else if buffer = "campaigncheck" then
    some { s with calls := s.calls ++ [AgentCall.CampaignCheck] }
  else if buffer = "pause" then
    some { s with calls := s.calls ++ [AgentCall.Pause] }
  else if buffer = "resume" then
    some { s with calls := s.calls ++ [AgentCall.Resume] }
  else if buffer = "abort" then
    some { s with calls := s.calls ++ [AgentCall.Abort] }
  else if buffer = "lucid" then
    some { s with cout := s.cout ++ "Lucid Air\n" }
  else if buffer = "uptanecycle" then
    some { s with
      cout := s.cout ++ "Running Uptane Cycle...\n"
      calls := s.calls ++ [AgentCall.UptaneCycle] }
  else if buffer = "campaignaccept" then
    match campaignSelection fuel s.campaign_check_result
      { s with
        cout := s.cout ++ "Campaign Accepted...\n"
        calls := s.calls ++ [AgentCall.CampaignCheck] } with
    | Outcome.returned s1 => some s1
    | _ => none
  else if buffer = "sendmanifest" then
    let manifest1 := Map.assign "Update Status" "Complete" s.custom_manifest
    let r := getline s.cin ""
    let custom_string := r.2
    let manifest2 := Map.assign "Custom" custom_string manifest1
    some { s with
      custom_manifest := manifest2
      cin := r.1
      cout := s.cout ++ "Enter Custom Text to Send as Manifest: "
        ++ "Added Custom Message: " ++ custom_string ++ "\n"
      calls := s.calls ++ [AgentCall.SendManifest manifest2] }
  else if buffer ≠ "" then
    some { s with cout := s.cout ++ "Unknown command\n" }
  else
    some s

/-- The `while (std::getline(std::cin, buffer))` loop of `main`. -/
def main_loop : Nat → State → Option State
  | 0, _ => none
  | fuel + 1, s =>
    let r := getline s.cin ""
    if r.1.failbit then
      some { s with cin := r.1 }
    else
      match dispatch fuel r.2 { s with cin := r.1 } with
      | none => none
      | some s1 => main_loop fuel s1

/-- A state with nothing recorded and the given text waiting on standard input. -/
def initial_state (input : String) (campaigns : List Campaign) : State :=
  { current_updates := []
    progress := []
    campaign_id_selected := ""
    custom_manifest := []
    cin := { buf := input.data, eofbit := false, failbit := false }
    cout := ""
    calls := []
    campaign_check_result := campaigns }

/-! ## Vocabulary of the statements -/

/-- Removal of leading and trailing white space.  The source has no such step; the function
only serves to state what the specification calls a trimmed line. -/
def trim (input : String) : String :=
  String.mk ((input.data.dropWhile isspace).reverse.dropWhile isspace).reverse

/-- The normal form of a line in the words of the specification: case-folded, then trimmed.
The command loop itself applies `to_lower` only. -/
def spec_normalize (line : String) : String :=
  trim (to_lower line)

/-- A progress report as the agent hands it over, without the item it is about: the file name
of the target, the description and the percentage. -/
abbrev Report := String × String × Nat

/-- The `DownloadProgressReport` events of one item, identified by its hash. -/
def progress_reports (hash : String) (reports : List Report) : List Event :=
  reports.map (fun r => Event.DownloadProgressReport ⟨hash, r.1⟩ r.2.1 r.2.2)

/-- The largest percentage among the reports, `0` when there is none. -/
def max_percent (reports : List Report) : Nat :=
  reports.foldl (fun m r => max m r.2.2) 0

/-- The line `process_event` writes for a progress report it renders. -/
def progress_line (filename : String) (percent : Nat) : String :=
  "Download progress for file " ++ filename ++ ": " ++ toString percent ++ "%\n"

/-- The decimal numeral of an integer as an operator types it: a minus sign for a negative
number, then the digits. -/
def decimal (x : Int) : List Char :=
  if x < 0 then '-' :: Nat.toDigits 10 x.natAbs else Nat.toDigits 10 x.toNat

/-- The text of a sequence of integer entries, each entered with a newline. -/
def typed : List Int → List Char
  | [] => []
  | x :: xs => decimal x ++ '\n' :: typed xs

/-- The output of `n` rounds of the re-prompt of `campaign_selection`. -/
def reprompts : Nat → String
  | 0 => ""
  | n + 1 => "Enter index number from the selection\n" ++ reprompts n

/-- The output stream after `campaignSelection` has printed the header and the numbered
campaigns, `cout` being the stream before. -/
def campaign_listing (campaign_list : List Campaign) (cout : String) : String :=
  (campaign_list.foldl list_campaign (0, cout ++ "--CAMPAIGNS FOUND--...\n", [])).2.1

/-! ## Lemmas on maps -/

theorem Map.find_assign_self {β : Type} (k : String) (v : β) (m : Map β) :
    Map.find k (Map.assign k v m) = some v := by
  induction m with
  | nil => simp [Map.assign, Map.find]
  | cons e m ih =>
    obtain ⟨k', v'⟩ := e
    by_cases h : k' = k
    · simp [Map.assign, Map.find, h]
    · simp [Map.assign, Map.find, h, ih]

theorem Map.find_assign_other {β : Type} (k k' : String) (v : β) (m : Map β) (h : k' ≠ k) :
    Map.find k' (Map.assign k v m) = Map.find k' m := by
  induction m with
  | nil => simp [Map.assign, Map.find, h.symm]
  | cons e m ih =>
    obtain ⟨k'', v''⟩ := e
    by_cases h1 : k'' = k
    · subst h1
      simp [Map.assign, Map.find, h.symm]
    · by_cases h2 : k'' = k'
      · subst h2
        simp [Map.assign, Map.find, h1]
      · simp [Map.assign, Map.find, h1, h2, ih]

theorem Map.find_erase_self {β : Type} (k : String) (m : Map β) :
    Map.find k (Map.erase k m) = none := by
  induction m with
  | nil => simp [Map.erase, Map.find]
  | cons e m ih =>
    obtain ⟨k', v'⟩ := e
    by_cases h : k' = k
    · simp [Map.erase, h, ih]
    · simp [Map.erase, Map.find, h, ih]

theorem Map.find_erase_other {β : Type} (k k' : String) (m : Map β) (h : k' ≠ k) :
    Map.find k' (Map.erase k m) = Map.find k' m := by
  induction m with
  | nil => simp [Map.erase, Map.find]
  | cons e m ih =>
    obtain ⟨k'', v''⟩ := e
    by_cases h1 : k'' = k
    · subst h1
      simp [Map.erase, Map.find, h.symm, ih]
    · by_cases h2 : k'' = k'
      · subst h2
        simp [Map.erase, Map.find, h1]
      · simp [Map.erase, Map.find, h1, h2, ih]

theorem Map.erase_absent {β : Type} (k : String) (m : Map β) (h : Map.find k m = none) :
    Map.erase k m = m := by
  induction m with
  | nil => simp [Map.erase]
  | cons e m ih =>
    obtain ⟨k', v'⟩ := e
    by_cases h1 : k' = k
    · simp [Map.find, h1] at h
    · simp [Map.find, h1] at h
      simp [Map.erase, h1, ih h]

/-! ## Completion and update-check events -/

/-- Claim C7.  Whatever the ledger holds, a `DownloadTargetComplete` event for an item leaves no
entry for that item, for either value of the success flag; when the item had no entry, the
ledger is left exactly as it was. -/
theorem download_complete_removes_entry (s : State) (update : Target) (success : Bool) :
    Map.find update.sha256Hash
        (process_event (Event.DownloadTargetComplete update success) s).progress = none
      ∧ (Map.find update.sha256Hash s.progress = none →
          (process_event (Event.DownloadTargetComplete update success) s).progress
            = s.progress) := by
  refine ⟨?_, ?_⟩
  · simp [process_event, Map.find_erase_self]
  · intro h
    simp [process_event, Map.erase_absent _ _ h]

/-- Instance of C7: a completion event for an item that never reported progress. -/
theorem download_complete_removes_entry_witness :
    Map.find "abc123"
        (process_event (Event.DownloadTargetComplete ⟨"abc123", "image.bin"⟩ false)
          (initial_state "" [])).progress = none
      ∧ (process_event (Event.DownloadTargetComplete ⟨"abc123", "image.bin"⟩ false)
          (initial_state "" [])).progress = (initial_state "" []).progress :=
  ⟨(download_complete_removes_entry (initial_state "" []) ⟨"abc123", "image.bin"⟩ false).1,
   (download_complete_removes_entry (initial_state "" []) ⟨"abc123", "image.bin"⟩ false).2
     (by decide)⟩

/-- Claim C8.  An `UpdateCheckComplete` event carrying the list `updates` makes `current_updates`
equal to `updates`, whatever it held before, and writes the one line
`<length of updates> updates available`; nothing else in the state changes. -/
theorem update_check_replaces_candidates (s : State) (updates : List Target) :
    (process_event (Event.UpdateCheckComplete updates) s).current_updates = updates
      ∧ (process_event (Event.UpdateCheckComplete updates) s).cout
          = s.cout ++ (toString updates.length ++ " updates available\n")
      ∧ process_event (Event.UpdateCheckComplete updates) s
          = { s with
              current_updates := updates
              cout := s.cout ++ toString updates.length ++ " updates available\n" } := by
  refine ⟨rfl, ?_, rfl⟩
  simp [process_event, String.append_assoc]

/-! ## The empty campaign list -/

theorem campaignSelection_never_returns (fuel : Nat) (campaign_list : List Campaign)
    (s s1 : State) : campaignSelection fuel campaign_list s ≠ Outcome.returned s1 := by
  unfold campaignSelection
  split_ifs
  · simp
  · simp only
    split
    · simp
    · split <;> simp

/-- Claim C10 on the failing input.  For an empty campaign list `campaignSelection` writes the
line `No Campaigns to Accept...`, reads nothing from standard input and makes no call on the
agent.  Control then reaches the end of the function, which is declared `int` and has no
`return` statement: the call does not return, whatever the state and the fuel. -/
theorem campaignSelection_empty_no_return (fuel : Nat) (s : State) :
    campaignSelection fuel [] s
        = Outcome.no_return { s with cout := s.cout ++ "No Campaigns to Accept...\n" }
      ∧ ∀ s1, campaignSelection fuel [] s ≠ Outcome.returned s1 := by
  have h : campaignSelection fuel [] s
      = Outcome.no_return { s with cout := s.cout ++ "No Campaigns to Accept...\n" } := by
    simp [campaignSelection]
  refine ⟨h, ?_⟩
  intro s1
  rw [h]
  simp

/-! ## The command loop -/

theorem vocabulary_trimmed : ∀ w ∈ vocabulary, trim w = w := by decide

theorem to_lower_eq_empty (line : String) (h : to_lower line = "") : line = "" := by
  have h1 : (to_lower line).data = [] := by rw [h]
  simp only [to_lower, List.map_eq_nil_iff] at h1
  cases line with
  | mk data =>
    simp only at h1
    subst h1
    rfl

theorem process_event_calls (e : Event) (s : State) : (process_event e s).calls = s.calls := by
  cases e <;> simp only [process_event]
  all_goals split_ifs
  all_goals rfl

theorem process_events_calls (es : List Event) (s : State) :
    (process_events es s).calls = s.calls := by
  induction es generalizing s with
  | nil => rfl
  | cons e es ih =>
    simp only [process_events, List.foldl_cons] at ih ⊢
    rw [ih, process_event_calls]

theorem process_event_current_updates (e : Event) (s : State)
    (h : ∀ updates, e ≠ Event.UpdateCheckComplete updates) :
    (process_event e s).current_updates = s.current_updates := by
  cases e with
  | UpdateCheckComplete updates => exact absurd rfl (h updates)
  | DownloadProgressReport t d p =>
    simp only [process_event]
    split_ifs <;> rfl
  | _ => rfl

theorem process_events_current_updates (es : List Event) (s : State)
    (h : ∀ e ∈ es, ∀ updates, e ≠ Event.UpdateCheckComplete updates) :
    (process_events es s).current_updates = s.current_updates := by
  induction es generalizing s with
  | nil => rfl
  | cons e es ih =>
    simp only [process_events, List.foldl_cons] at ih ⊢
    rw [ih _ (fun e' he' => h e' (List.mem_cons_of_mem _ he')),
      process_event_current_updates e s (h e (List.mem_cons_self _ _))]

theorem dispatch_install (fuel : Nat) (line : String) (s : State)
    (h : to_lower line = "install" ∨ to_lower line = "uptaneinstall") :
    dispatch fuel line s
      = some { s with
          calls := s.calls ++ [AgentCall.Install s.current_updates]
          current_updates := [] } := by
  rcases h with h | h <;> simp [dispatch, h]

/-- Claim C2.  In every state a line that lower-cases to `install` or `uptaneinstall` calls
`Install` with the current candidate sequence and leaves that sequence empty.  A second such
line, with any events other than `UpdateCheckComplete` handled in between, calls `Install`
with the empty sequence. -/
theorem install_consumes_candidates (fuel : Nat) (line1 line2 : String) (events : List Event)
    (s : State)
    (h1 : to_lower line1 = "install" ∨ to_lower line1 = "uptaneinstall")
    (h2 : to_lower line2 = "install" ∨ to_lower line2 = "uptaneinstall")
    (hev : ∀ e ∈ events, ∀ updates, e ≠ Event.UpdateCheckComplete updates) :
    ∃ s1 s2,
      dispatch fuel line1 s = some s1
        ∧ s1 = { s with
            calls := s.calls ++ [AgentCall.Install s.current_updates]
            current_updates := [] }
        ∧ dispatch fuel line2 (process_events events s1) = some s2
        ∧ s2.calls
            = s.calls ++ [AgentCall.Install s.current_updates, AgentCall.Install []]
        ∧ s2.current_updates = [] := by
  refine ⟨_, _, dispatch_install fuel line1 s h1, rfl, dispatch_install fuel line2 _ h2, ?_, rfl⟩
  simp only [process_events_calls, process_events_current_updates _ _ hev]
  simp

/-- Instance of C2: `install` twice in a row with one candidate on record. -/
theorem install_consumes_candidates_witness :
    ∃ s1 s2,
      dispatch 0 "install" { initial_state "" [] with current_updates := [⟨"abc123", "f"⟩] }
          = some s1
        ∧ s1 = { initial_state "" [] with
            calls := [AgentCall.Install [⟨"abc123", "f"⟩]]
            current_updates := [] }
        ∧ dispatch 0 "Install" (process_events [] s1) = some s2
        ∧ s2.calls = [AgentCall.Install [⟨"abc123", "f"⟩], AgentCall.Install []]
        ∧ s2.current_updates = [] :=
  install_consumes_candidates 0 "install" "Install" []
    { initial_state "" [] with current_updates := [⟨"abc123", "f"⟩] }
    (by decide) (by decide) (by simp)

/-- Claim C9.  A non-empty line whose normal form is not a word of the vocabulary, be it the
lower-cased line the loop compares or the lower-cased and trimmed line of the specification,
writes the one line `Unknown command` and changes nothing else: no call is made on the agent,
and the candidate sequence, the custom manifest and standard input are as before. -/
theorem unknown_command_no_effect (fuel : Nat) (line : String) (s : State)
    (hne : line ≠ "")
    (hvoc : to_lower line ∉ vocabulary ∨ spec_normalize line ∉ vocabulary) :
    dispatch fuel line s = some { s with cout := s.cout ++ "Unknown command\n" } := by
  have hlow : to_lower line ∉ vocabulary := by
    rcases hvoc with h | h
    · exact h
    · intro hin
      apply h
      unfold spec_normalize
      rw [vocabulary_trimmed _ hin]
      exact hin
  have hne2 : to_lower line ≠ "" := fun h => hne (to_lower_eq_empty line h)
  simp only [vocabulary, List.mem_cons, List.mem_singleton, List.not_mem_nil, or_false,
    not_or] at hlow
  obtain ⟨a1, a2, a3, a4, a5, a6, a7, a8, a9, a10, a11, a12, a13, a14, a15, a16, a17⟩ := hlow
  simp [dispatch, a1, a2, a3, a4, a5, a6, a7, a8, a9, a10, a11, a12, a13, a14, a15, a16, a17,
    hne2]

/-- Instance of C9: the line `foobar`. -/
theorem unknown_command_no_effect_witness :
    dispatch 0 "foobar" (initial_state "" [])
      = some { initial_state "" [] with cout := "" ++ "Unknown command\n" } :=
  unknown_command_no_effect 0 "foobar" (initial_state "" []) (by decide) (Or.inl (by decide))

/-- The `campaignaccept` branch never gets back to the head of the command loop:
`campaignSelection` has no `return` statement to come back through. -/
theorem dispatch_campaignaccept_no_return (fuel : Nat) (line : String) (s : State)
    (h : to_lower line = "campaignaccept") : dispatch fuel line s = none := by
  simp only [dispatch, h]
  rw [if_neg (by decide), if_neg (by decide), if_neg (by decide), if_neg (by decide),
    if_neg (by decide), if_neg (by decide), if_neg (by decide), if_neg (by decide),
    if_neg (by decide), if_neg (by decide), if_pos trivial]
  split
  · rename_i s1 heq
    exact absurd heq (campaignSelection_never_returns _ _ _ _)
  · rfl

/-! ## The progress ledger -/

theorem String.append_ne_self_of_pos (a b : String) (h : 0 < b.length) : a ++ b ≠ a := by
  intro heq
  have := congrArg String.length heq
  rw [String.length_append] at this
  omega

theorem progress_line_length_pos (filename : String) (percent : Nat) :
    0 < (progress_line filename percent).length := by
  simp only [progress_line, String.length_append]
  have : ("Download progress for file " : String).length = 27 := by decide
  omega

/-- One progress report, handled in a state whose ledger value for the item (taken as `0` when
there is no entry) is `m`. -/
theorem process_progress_report (s : State) (target : Target) (description : String)
    (percent m : Nat) (hm : (Map.find target.sha256Hash s.progress).getD 0 = m) :
    Map.find target.sha256Hash
        (process_event (Event.DownloadProgressReport target description percent) s).progress
        = some (max m percent)
      ∧ (process_event (Event.DownloadProgressReport target description percent) s).cout
        = if m < percent then s.cout ++ progress_line target.filename percent else s.cout := by
  cases hf : Map.find target.sha256Hash s.progress with
  | none =>
    rw [hf] at hm
    simp only [Option.getD_none] at hm
    subst hm
    by_cases hp : 0 < percent
    · simp [process_event, hf, Map.find_assign_self, hp, progress_line, String.append_assoc]
    · have h0 : percent = 0 := by omega
      subst h0
      simp [process_event, hf, Map.find_assign_self]
  | some v =>
    rw [hf] at hm
    simp only [Option.getD_some] at hm
    subst hm
    by_cases hp : v < percent
    · simp [process_event, hf, Map.find_assign_self, hp, progress_line, String.append_assoc,
        Nat.max_eq_right (Nat.le_of_lt hp)]
    · simp [process_event, hf, hp, Nat.max_eq_left (Nat.le_of_not_lt hp)]

theorem process_events_append (es1 es2 : List Event) (s : State) :
    process_events (es1 ++ es2) s = process_events es2 (process_events es1 s) := by
  simp [process_events, List.foldl_append]

theorem progress_reports_append (hash : String) (rs1 rs2 : List Report) :
    progress_reports hash (rs1 ++ rs2) = progress_reports hash rs1 ++ progress_reports hash rs2 := by
  simp [progress_reports]

theorem max_percent_append (rs : List Report) (r : Report) :
    max_percent (rs ++ [r]) = max (max_percent rs) r.2.2 := by
  simp [max_percent, List.foldl_append]

theorem ledger_value_after_reports (hash : String) (s : State) (reports : List Report)
    (h : Map.find hash s.progress = none) :
    (Map.find hash (process_events (progress_reports hash reports) s).progress).getD 0
      = max_percent reports := by
  induction reports using List.reverseRecOn with
  | nil => simp [progress_reports, process_events, h, max_percent]
  | append_singleton rs r ih =>
    rw [progress_reports_append, process_events_append, max_percent_append]
    have := (process_progress_report (process_events (progress_reports hash rs) s)
      ⟨hash, r.1⟩ r.2.1 r.2.2 _ ih).1
    simp only [progress_reports, process_events, List.map_cons, List.map_nil, List.foldl_cons,
      List.foldl_nil] at this ⊢
    rw [this]
    rfl

/-- Claim C1.  Let the ledger have no entry for an item, let `pre` be any sequence of progress
reports for that item already handled, and let `r` be the next one.  After `r` the ledger holds
the largest percentage of `pre ++ [r]`.  A line is written for `r` exactly when its percentage
exceeds the value stored before it (the largest percentage of `pre`, the initial `0` when `pre`
is empty), that is, exactly when `r` strictly increases the stored value; the line written is
the progress line of `r`. -/
theorem progress_ledger_tracks_maximum (hash : String) (s : State) (pre : List Report)
    (r : Report) (h : Map.find hash s.progress = none) :
    Map.find hash (process_events (progress_reports hash (pre ++ [r])) s).progress
        = some (max_percent (pre ++ [r]))
      ∧ (Map.find hash (process_events (progress_reports hash pre) s).progress).getD 0
        = max_percent pre
      ∧ ((process_events (progress_reports hash (pre ++ [r])) s).cout
          ≠ (process_events (progress_reports hash pre) s).cout
        ↔ max_percent pre < max_percent (pre ++ [r]))
      ∧ (process_events (progress_reports hash (pre ++ [r])) s).cout
        = if max_percent pre < r.2.2 then
            (process_events (progress_reports hash pre) s).cout ++ progress_line r.1 r.2.2
          else (process_events (progress_reports hash pre) s).cout := by
  have ih := ledger_value_after_reports hash s pre h
  have step := process_progress_report (process_events (progress_reports hash pre) s)
    ⟨hash, r.1⟩ r.2.1 r.2.2 _ ih
  have hrun : process_events (progress_reports hash (pre ++ [r])) s
      = process_event (Event.DownloadProgressReport ⟨hash, r.1⟩ r.2.1 r.2.2)
          (process_events (progress_reports hash pre) s) := by
    rw [progress_reports_append, process_events_append]
    rfl
  rw [hrun, max_percent_append]
  refine ⟨step.1, ih, ?_, step.2⟩
  rw [step.2]
  by_cases hp : max_percent pre < r.2.2
  · simp only [hp, if_true]
    constructor
    · intro _
      exact lt_max_of_lt_right hp
    · intro _
      exact String.append_ne_self_of_pos _ _ (progress_line_length_pos _ _)
  · simp only [hp, if_false]
    constructor
    · intro hne
      exact absurd rfl hne
    · intro hlt
      rw [Nat.max_eq_left (Nat.le_of_not_lt hp)] at hlt
      exact absurd hlt (Nat.lt_irrefl _)

/-- Instance of C1: the reports 10, 5 and 50 for item `abc123`, seen after the report 5. -/
theorem progress_ledger_tracks_maximum_witness :
    Map.find "abc123"
        (process_events
          (progress_reports "abc123" ([("f", "", 10), ("f", "", 5)] ++ [("f", "", 50)]))
          (initial_state "" [])).progress
      = some (max_percent ([("f", "", 10), ("f", "", 5)] ++ [("f", "", 50)])) :=
  (progress_ledger_tracks_maximum "abc123" (initial_state "" [])
    [("f", "", 10), ("f", "", 5)] ("f", "", 50) (by decide)).1

theorem process_event_bounded (e : Event) (s : State)
    (he : ∀ t d p, e = Event.DownloadProgressReport t d p → p ≤ 100)
    (hs : ∀ k v, Map.find k s.progress = some v → v ≤ 100) :
    ∀ k v, Map.find k (process_event e s).progress = some v → v ≤ 100 := by
  intro k v hk
  cases e with
  | DownloadProgressReport t d p =>
    have hp : p ≤ 100 := he t d p rfl
    simp only [process_event] at hk
    by_cases hkey : k = t.sha256Hash
    · subst hkey
      split_ifs at hk <;>
        simp only [Map.find_assign_self, Option.some.injEq] at hk <;>
        first
          | omega
          | exact hs _ _ hk
    · split_ifs at hk <;>
        simp only [Map.find_assign_other _ _ _ _ hkey] at hk <;>
        exact hs _ _ hk
  | DownloadTargetComplete t ok =>
    simp only [process_event] at hk
    by_cases hkey : k = t.sha256Hash
    · subst hkey
      rw [Map.find_erase_self] at hk
      exact absurd hk (by simp)
    · rw [Map.find_erase_other _ _ _ hkey] at hk
      exact hs _ _ hk
  | InstallStarted _ => exact hs _ _ hk
  | InstallTargetComplete _ _ => exact hs _ _ hk
  | UpdateCheckComplete _ => exact hs _ _ hk
  | Other _ => exact hs _ _ hk

theorem process_events_bounded (events : List Event) (s : State)
    (he : ∀ e ∈ events, ∀ t d p, e = Event.DownloadProgressReport t d p → p ≤ 100)
    (hs : ∀ k v, Map.find k s.progress = some v → v ≤ 100) :
    ∀ k v, Map.find k (process_events events s).progress = some v → v ≤ 100 := by
  induction events generalizing s with
  | nil => exact hs
  | cons e es ih =>
    simp only [process_events, List.foldl_cons] at ih ⊢
    exact ih _ (fun e' he' => he e' (List.mem_cons_of_mem _ he'))
      (process_event_bounded e s (he e (List.mem_cons_self _ _)) hs)

/-- Counterexample to C6 as stated.  One progress report carrying 150 leaves the entry 150 in a
ledger that was empty: the handler stores the percentage it is given without bounding it. -/
theorem ledger_entry_above_100 :
    Map.find "abc123"
        (process_events [Event.DownloadProgressReport ⟨"abc123", "f"⟩ "" 150]
          (initial_state "" [])).progress = some 150
      ∧ ¬ (150 ≤ 100) := by
  decide

/-- Claim C6, amended.  Starting from the empty ledger and handling any sequence of events in
which every progress report carries a percentage of at most 100, every entry of the ledger
holds a value of at most 100 (and at least 0, being unsigned). -/
theorem ledger_entries_bounded (events : List Event) (s : State) (hs : s.progress = [])
    (he : ∀ e ∈ events, ∀ t d p, e = Event.DownloadProgressReport t d p → p ≤ 100) :
    ∀ k v, Map.find k (process_events events s).progress = some v → 0 ≤ v ∧ v ≤ 100 := by
  intro k v hk
  refine ⟨Nat.zero_le v, ?_⟩
  refine process_events_bounded events s he ?_ k v hk
  intro k' v' hk'
  rw [hs] at hk'
  simp [Map.find] at hk'

/-- Instance of the amended C6: the reports 10, 5 and 50 for one item and 100 for another. -/
theorem ledger_entries_bounded_witness :
    0 ≤ 50 ∧ 50 ≤ 100 :=
  ledger_entries_bounded
    [Event.DownloadProgressReport ⟨"abc123", "f"⟩ "" 10,
     Event.DownloadProgressReport ⟨"abc123", "f"⟩ "" 5,
     Event.DownloadProgressReport ⟨"abc123", "f"⟩ "" 50,
     Event.DownloadProgressReport ⟨"def456", "g"⟩ "" 100]
    (initial_state "" []) rfl
    (by
      intro e he t d p heq
      simp only [List.mem_cons, List.mem_singleton, List.not_mem_nil, or_false] at he
      rcases he with h | h | h | h <;> rw [h] at heq <;> cases heq <;> decide)
    "abc123" 50 (by decide)

/-! ## Reading a decimal numeral back -/

theorem digitChar_isdigit (m : Nat) (h : m < 10) : isdigit (Nat.digitChar m) = true := by
  interval_cases m <;> decide

theorem digitChar_value (m : Nat) (h : m < 10) : (Nat.digitChar m).toNat - 48 = m := by
  interval_cases m <;> decide

theorem toDigitsCore_isdigit (fuel n : Nat) (acc : List Char)
    (hacc : ∀ c ∈ acc, isdigit c = true) :
    ∀ c ∈ Nat.toDigitsCore 10 fuel n acc, isdigit c = true := by
  induction fuel generalizing n acc with
  | zero => simpa [Nat.toDigitsCore] using hacc
  | succ fuel ih =>
    have hd : isdigit (Nat.digitChar (n % 10)) = true :=
      digitChar_isdigit _ (Nat.mod_lt _ (by decide))
    have hacc2 : ∀ c ∈ Nat.digitChar (n % 10) :: acc, isdigit c = true := by
      intro c hc
      rcases List.mem_cons.mp hc with h | h
      · rw [h]; exact hd
      · exact hacc c h
    simp only [Nat.toDigitsCore]
    split_ifs
    · exact hacc2
    · exact ih _ _ hacc2

theorem toDigitsCore_ne_nil (fuel n : Nat) (acc : List Char) :
    Nat.toDigitsCore 10 (fuel + 1) n acc ≠ [] := by
  induction fuel generalizing n acc with
  | zero =>
    simp only [Nat.toDigitsCore]
    split_ifs <;> simp
  | succ fuel ih =>
    rw [Nat.toDigitsCore]
    split_ifs
    · simp
    · exact ih _ _

theorem toDigitsCore_value (fuel n : Nat) (acc : List Char) (h : n < fuel) :
    (Nat.toDigitsCore 10 fuel n acc).foldl (fun a c => 10 * a + (c.toNat - 48)) 0
      = acc.foldl (fun a c => 10 * a + (c.toNat - 48)) n := by
  induction fuel generalizing n acc with
  | zero => omega
  | succ fuel ih =>
    have hv := digitChar_value (n % 10) (Nat.mod_lt _ (by decide))
    simp only [Nat.toDigitsCore]
    split_ifs with h0
    · simp only [List.foldl_cons, hv]
      congr 1
      omega
    · rw [ih _ _ (by omega)]
      simp only [List.foldl_cons, hv]
      congr 1
      omega

theorem toDigits_isdigit (n : Nat) : ∀ c ∈ Nat.toDigits 10 n, isdigit c = true :=
  toDigitsCore_isdigit _ _ _ (by simp)

theorem toDigits_ne_nil (n : Nat) : Nat.toDigits 10 n ≠ [] :=
  toDigitsCore_ne_nil _ _ _

theorem toDigits_value (n : Nat) : digits_value (Nat.toDigits 10 n) = n := by
  simp only [digits_value, Nat.toDigits]
  rw [toDigitsCore_value _ _ _ (Nat.lt_succ_self n)]
  rfl

theorem takeWhile_digits (ds rest : List Char) (hds : ∀ c ∈ ds, isdigit c = true) :
    (ds ++ '\n' :: rest).takeWhile isdigit = ds := by
  induction ds with
  | nil => simp [List.takeWhile, show isdigit '\n' = false by decide]
  | cons d ds ih =>
    have hd : isdigit d = true := hds d (List.mem_cons_self _ _)
    rw [List.cons_append, List.takeWhile_cons, hd, if_pos rfl,
      ih (fun c hc => hds c (List.mem_cons_of_mem _ hc))]

theorem dropWhile_digits (ds rest : List Char) (hds : ∀ c ∈ ds, isdigit c = true) :
    (ds ++ '\n' :: rest).dropWhile isdigit = '\n' :: rest := by
  induction ds with
  | nil => simp [List.dropWhile, show isdigit '\n' = false by decide]
  | cons d ds ih =>
    have hd : isdigit d = true := hds d (List.mem_cons_self _ _)
    rw [List.cons_append, List.dropWhile_cons, hd, if_pos rfl,
      ih (fun c hc => hds c (List.mem_cons_of_mem _ hc))]

theorem isdigit_not_space (c : Char) (h : isdigit c = true) :
    isspace c = false ∧ c ≠ '-' ∧ c ≠ '+' := by
  simp only [isdigit, Bool.and_eq_true, decide_eq_true_eq] at h
  refine ⟨?_, ?_, ?_⟩
  · simp only [isspace, Bool.or_eq_false_iff, decide_eq_false_iff_not]
    refine ⟨⟨⟨⟨⟨?_, ?_⟩, ?_⟩, ?_⟩, ?_⟩, ?_⟩ <;>
    · intro hc
      rw [hc] at h
      revert h
      decide
  · intro hc
    rw [hc] at h
    revert h
    decide
  · intro hc
    rw [hc] at h
    revert h
    decide

theorem dropWhile_space (lead body : List Char) (c : Char)
    (hlead : ∀ x ∈ lead, isspace x = true) (hc : isspace c = false) :
    (lead ++ c :: body).dropWhile isspace = c :: body := by
  induction lead with
  | nil => simp [List.dropWhile, hc]
  | cons x xs ih =>
    have hx : isspace x = true := hlead x (List.mem_cons_self _ _)
    rw [List.cons_append, List.dropWhile_cons, hx, if_pos rfl]
    exact ih (fun y hy => hlead y (List.mem_cons_of_mem _ hy))

theorem extract_int_decimal (x : Int) (hx : INT_MIN ≤ x ∧ x ≤ INT_MAX) (lead rest : List Char)
    (old : Int) (hlead : ∀ c ∈ lead, isspace c = true) :
    extract_int ⟨lead ++ (decimal x ++ '\n' :: rest), false, false⟩ old
      = (⟨'\n' :: rest, false, false⟩, x) := by
  obtain ⟨hlo, hhi⟩ := hx
  by_cases hneg : x < 0
  · have hdec : decimal x = '-' :: Nat.toDigits 10 x.natAbs := by simp [decimal, hneg]
    have hds := toDigits_isdigit x.natAbs
    have hnn := toDigits_ne_nil x.natAbs
    have hval := toDigits_value x.natAbs
    have hv : -((x.natAbs : Nat) : Int) = x := by omega
    rw [hdec]
    simp only [extract_int, Bool.or_self, Bool.false_eq_true, if_false, List.cons_append]
    rw [dropWhile_space lead _ '-' hlead (by decide)]
    simp only [true_or, if_true, takeWhile_digits _ _ hds, dropWhile_digits _ _ hds,
      List.isEmpty_eq_true, hnn, decide_True, hval, hv, List.isEmpty_cons]
    have h1 : ¬ x > INT_MAX := by omega
    have h2 : ¬ x < INT_MIN := by omega
    simp [h1, h2]
  · have hdec : decimal x = Nat.toDigits 10 x.toNat := by simp [decimal, hneg]
    have hds := toDigits_isdigit x.toNat
    have hnn := toDigits_ne_nil x.toNat
    have hval := toDigits_value x.toNat
    have hv : ((x.toNat : Nat) : Int) = x := by omega
    rw [hdec]
    cases hd : Nat.toDigits 10 x.toNat with
    | nil => exact absurd hd hnn
    | cons c cs =>
      rw [hd] at hds hval
      have hc := isdigit_not_space c (hds c (List.mem_cons_self _ _))
      simp only [extract_int, Bool.or_self, Bool.false_eq_true, if_false, List.cons_append]
      rw [dropWhile_space lead _ c hlead hc.1]
      have hbody : (if c = '-' ∨ c = '+' then cs ++ '\n' :: rest else c :: (cs ++ '\n' :: rest))
          = (c :: cs) ++ '\n' :: rest := by
        simp [hc.2.1, hc.2.2]
      simp only [hbody]
      simp only [takeWhile_digits _ _ hds, dropWhile_digits _ _ hds,
        List.isEmpty_cons, hc.2.1, decide_False, hval, hv]
      have h1 : ¬ x > INT_MAX := by omega
      have h2 : ¬ x < INT_MIN := by omega
      simp [h1, h2]

/-! ## The selection loop -/

theorem out_of_range_iff (r : Int) (n : Nat) (hr : INT_MIN ≤ r ∧ r ≤ INT_MAX) :
    out_of_range r n = true ↔ (r < 1 ∨ (n : Int) < r) := by
  obtain ⟨hlo, hhi⟩ := hr
  simp only [INT_MIN, INT_MAX] at hlo hhi
  simp only [out_of_range, Bool.or_eq_true, decide_eq_true_eq]
  by_cases h1 : r < 1
  · simp [h1]
  · have hmod : r % 2 ^ 64 = r := Int.emod_eq_of_lt (by omega) (by norm_num; omega)
    rw [hmod]
    constructor
    · rintro (h | h)
      · exact Or.inl h
      · right; omega
    · rintro (h | h)
      · exact Or.inl h
      · right; omega

theorem extract_int_range (is : IStream) (old : Int) (h : INT_MIN ≤ old ∧ old ≤ INT_MAX) :
    INT_MIN ≤ (extract_int is old).2 ∧ (extract_int is old).2 ≤ INT_MAX := by
  unfold extract_int
  split_ifs
  · exact h
  · split
    · exact h
    · simp only
      split_ifs
      all_goals first
        | exact h
        | (simp only [INT_MIN, INT_MAX]; omega)
        | (constructor <;> simp only [INT_MIN, INT_MAX] at * <;> omega)

theorem campaign_selection_loop_result (n fuel : Nat) (retVal : Int) (s : State)
    (r : Int) (s1 : State) (hr : INT_MIN ≤ retVal ∧ retVal ≤ INT_MAX)
    (h : campaign_selection_loop n fuel retVal s = some (r, s1)) :
    1 ≤ r ∧ r ≤ (n : Int) := by
  induction fuel generalizing retVal s with
  | zero => simp [campaign_selection_loop] at h
  | succ fuel ih =>
    simp only [campaign_selection_loop] at h
    split_ifs at h with hout hout2
    · exact ih _ _ (extract_int_range _ _ hr) h
    · exact ih _ _ (extract_int_range _ _ hr) h
    · simp only [Option.some.injEq, Prod.mk.injEq] at h
      obtain ⟨h1, _⟩ := h
      subst h1
      have := (out_of_range_iff retVal n hr).not.mp (by simpa using hout)
      omega

theorem campaign_selection_loop_stuck (n fuel : Nat) (retVal : Int) (s : State)
    (hfail : s.cin.failbit = true) (hout : out_of_range retVal n = true) :
    campaign_selection_loop n fuel retVal s = none := by
  induction fuel generalizing s with
  | zero => rfl
  | succ fuel ih =>
    have hex : extract_int s.cin retVal = ({ s.cin with failbit := true }, retVal) := by
      simp [extract_int, hfail]
    simp only [campaign_selection_loop, hout, if_true, hex]
    exact ih _ rfl

theorem reprompts_succ (cout : String) (n : Nat) :
    cout ++ "Enter index number from the selection\n" ++ reprompts n
      = cout ++ reprompts (n + 1) := by
  simp [reprompts, String.append_assoc]

theorem campaign_selection_loop_typed (n : Nat) (pre : List Int) (k : Int) (rest : List Char)
    (hpre : ∀ x ∈ pre, INT_MIN ≤ x ∧ x ≤ INT_MAX ∧ (x < 1 ∨ (n : Int) < x))
    (hk : 1 ≤ k ∧ k ≤ (n : Int) ∧ k ≤ INT_MAX)
    (fuel : Nat) (hfuel : pre.length + 2 ≤ fuel)
    (retVal : Int) (hret : out_of_range retVal n = true)
    (lead : List Char) (hlead : ∀ c ∈ lead, isspace c = true)
    (s : State)
    (hcin : s.cin = ⟨lead ++ (typed pre ++ (decimal k ++ '\n' :: rest)), false, false⟩) :
    campaign_selection_loop n fuel retVal s
      = some (k, { s with
          cin := ⟨'\n' :: rest, false, false⟩
          cout := s.cout ++ reprompts pre.length }) := by
  have hkr : INT_MIN ≤ k ∧ k ≤ INT_MAX := ⟨by simp only [INT_MIN]; omega, hk.2.2⟩
  have hkin : out_of_range k n = false := by
    have := (out_of_range_iff k n hkr).not.mpr (by omega)
    simpa using this
  induction pre generalizing fuel retVal lead s with
  | nil =>
    obtain ⟨f, rfl⟩ : ∃ f, fuel = f + 2 := ⟨fuel - 2, by simp at hfuel; omega⟩
    simp only [typed, List.nil_append] at hcin
    simp only [campaign_selection_loop, hret, if_true, hcin,
      extract_int_decimal k hkr lead rest retVal hlead, hkin, Bool.false_eq_true, if_false,
      List.length_nil, reprompts, String.append_empty]
  | cons x xs ih =>
    obtain ⟨f, rfl⟩ : ∃ f, fuel = f + 1 := ⟨fuel - 1, by simp at hfuel; omega⟩
    have hx := hpre x (List.mem_cons_self _ _)
    have hxr : INT_MIN ≤ x ∧ x ≤ INT_MAX := ⟨hx.1, hx.2.1⟩
    have hxout : out_of_range x n = true := (out_of_range_iff x n hxr).mpr hx.2.2
    have hcin2 : s.cin = ⟨lead ++ (decimal x ++ '\n' :: (typed xs ++ (decimal k ++ '\n' :: rest))),
        false, false⟩ := by
      rw [hcin]
      simp [typed]
    simp only [campaign_selection_loop, hret, if_true, hcin2,
      extract_int_decimal x hxr lead _ retVal hlead, hxout]
    rw [ih (fun y hy => hpre y (List.mem_cons_of_mem _ hy)) f
      (by simp at hfuel ⊢; omega) x hxout ['\n'] (by intro c hc; simp at hc; rw [hc]; decide)
      _ (by simp)]
    simp only [List.length_cons, reprompts_succ]

/-! ## The campaign selector -/

theorem list_campaign_ids (campaign_list : List Campaign) (acc : Int × String × List String) :
    (campaign_list.foldl list_campaign acc).2.2 = acc.2.2 ++ campaign_list.map (fun c => c.id) := by
  induction campaign_list generalizing acc with
  | nil => simp
  | cons c cs ih =>
    rw [List.foldl_cons, ih]
    simp [list_campaign]

theorem list_campaign_ids_length (campaign_list : List Campaign) (cout : String) :
    (campaign_list.foldl list_campaign (0, cout, [])).2.2.length = campaign_list.length := by
  rw [list_campaign_ids]
  simp

theorem campaign_selection_result (n fuel : Nat) (s : State) (r : Int) (s1 : State)
    (h : campaign_selection fuel n s = some (r, s1)) : 1 ≤ r ∧ r ≤ (n : Int) :=
  campaign_selection_loop_result n fuel 0 _ r s1 (by decide) h

/-- When the first extraction leaves `failbit` set and a value outside the range, the loop of
`campaign_selection` returns with no amount of fuel. -/
theorem campaign_selection_diverges (n fuel : Nat) (s : State)
    (hfail : (extract_int s.cin 0).1.failbit = true)
    (hout : out_of_range (extract_int s.cin 0).2 n = true) :
    campaign_selection fuel n s = none := by
  cases fuel with
  | zero => rfl
  | succ fuel =>
    have h0 : out_of_range 0 n = true := by simp [out_of_range]
    simp only [campaign_selection, campaign_selection_loop, h0, if_true, hout]
    exact campaign_selection_loop_stuck n fuel _ _ hfail hout

theorem campaignSelection_diverges (campaign_list : List Campaign) (fuel : Nat) (s : State)
    (hne : 1 ≤ campaign_list.length)
    (hfail : (extract_int s.cin 0).1.failbit = true)
    (hout : out_of_range (extract_int s.cin 0).2 campaign_list.length = true) :
    campaignSelection fuel campaign_list s = Outcome.out_of_fuel := by
  have hsel := campaign_selection_diverges campaign_list.length fuel
    { s with cout := campaign_listing campaign_list s.cout } hfail hout
  simp only [campaignSelection, if_neg (Nat.not_lt.mpr hne), list_campaign_ids_length]
  simp only [campaign_listing] at hsel
  rw [hsel]

/-- Claim C4 on the failing input.  With two campaigns and the entries `3000000000` and `1`,
the first entry is an integer outside `[1, 2]` that does not fit an `int`: the extraction
stores `INT_MAX` and sets `failbit`, which nothing clears, so the valid entry `1` is never
read.  The loop of `campaign_selection` returns with no amount of fuel, and `campaignSelection`
never gets as far as indexing the list or calling `CampaignControl`. -/
theorem campaign_selector_overflow_entry :
    typed [3000000000, 1] = "3000000000\n1\n".data
      ∧ extract_int (initial_state "3000000000\n1\n" []).cin 0
          = (⟨"\n1\n".data, false, true⟩, INT_MAX)
      ∧ (¬ ∃ fuel r s1,
          campaign_selection fuel 2 (initial_state "3000000000\n1\n" []) = some (r, s1))
      ∧ ∀ fuel,
          campaignSelection fuel [⟨"id1", "n1", "d1"⟩, ⟨"id2", "n2", "d2"⟩]
            (initial_state "3000000000\n1\n" []) = Outcome.out_of_fuel := by
  refine ⟨by decide, by decide, ?_, ?_⟩
  · rintro ⟨fuel, r, s1, h⟩
    rw [campaign_selection_diverges 2 fuel _ (by decide) (by decide)] at h
    exact absurd h (by simp)
  · intro fuel
    exact campaignSelection_diverges _ fuel _ (by decide) (by decide) (by decide)

/-- Claim C5 on the failing input.  With two campaigns and the entries `abc` and `1`, the
extraction fails on `abc`: it stores `0` and sets `failbit`, which nothing clears, so every
later extraction is a no-op and the valid entry `1` is never read: the loop of
`campaign_selection` returns with no amount of fuel, and `campaignSelection` is still inside
it whatever the fuel. -/
theorem campaign_selector_text_entry_hangs :
    extract_int (initial_state "abc\n1\n" []).cin 0 = (⟨"abc\n1\n".data, false, true⟩, 0)
      ∧ (¬ ∃ fuel r s1, campaign_selection fuel 2 (initial_state "abc\n1\n" []) = some (r, s1))
      ∧ ∀ fuel,
          campaignSelection fuel [⟨"id1", "n1", "d1"⟩, ⟨"id2", "n2", "d2"⟩]
            (initial_state "abc\n1\n" []) = Outcome.out_of_fuel := by
  refine ⟨by decide, ?_, ?_⟩
  · rintro ⟨fuel, r, s1, h⟩
    rw [campaign_selection_diverges 2 fuel _ (by decide) (by decide)] at h
    exact absurd h (by simp)
  · intro fuel
    exact campaignSelection_diverges _ fuel _ (by decide) (by decide) (by decide)

/-- The dialogue on entries that are values of `int`.  Let the campaign list have `N ≥ 1`
entries and let standard input hold the entries `pre`, each a value of `int` outside `[1, N]`,
then an entry `k` in `[1, N]`, each typed as a decimal numeral followed by a newline.  With
enough fuel `campaignSelection` writes the re-prompt once for every entry of `pre`, reads no
further than `k` and calls `CampaignControl` with the id of the `k`-th campaign (counting from
1) and `Accept`; it then reaches its closing brace without a `return` statement.  Whatever the
input, a value returned by `campaign_selection` lies in `[1, N]`. -/
theorem campaign_selector_accepts_first_valid (campaign_list : List Campaign) (s : State)
    (pre : List Int) (k : Int) (rest : List Char) (fuel : Nat)
    (hN : 1 ≤ campaign_list.length)
    (hcin : s.cin = ⟨typed pre ++ (decimal k ++ '\n' :: rest), false, false⟩)
    (hpre : ∀ x ∈ pre,
      INT_MIN ≤ x ∧ x ≤ INT_MAX ∧ (x < 1 ∨ (campaign_list.length : Int) < x))
    (hk : 1 ≤ k ∧ k ≤ (campaign_list.length : Int) ∧ k ≤ INT_MAX)
    (hfuel : pre.length + 2 ≤ fuel) :
    (∃ c, campaign_list[k.toNat - 1]? = some c
      ∧ campaignSelection fuel campaign_list s
        = Outcome.no_return { s with
            cin := ⟨'\n' :: rest, false, false⟩
            campaign_id_selected := c.id
            cout := campaign_listing campaign_list s.cout ++ "Select the Campaign to Accept...\n:"
              ++ reprompts pre.length ++ "Campaign Selected: " ++ c.id ++ "\n"
            calls := s.calls ++ [AgentCall.CampaignControl c.id Cmd.Accept] })
      ∧ ∀ (fuel0 : Nat) (s0 : State) (r : Int) (s1 : State),
          campaign_selection fuel0 campaign_list.length s0 = some (r, s1) →
            1 ≤ r ∧ r ≤ (campaign_list.length : Int) := by
  refine ⟨?_, fun fuel0 s0 r s1 h => campaign_selection_result _ fuel0 s0 r s1 h⟩
  have hlt : k.toNat - 1 < campaign_list.length := by omega
  refine ⟨campaign_list[k.toNat - 1], List.getElem?_eq_getElem hlt, ?_⟩
  have hloop := campaign_selection_loop_typed campaign_list.length pre k rest hpre hk fuel hfuel
    0 (by simp [out_of_range]) [] (by simp)
    { s with cout := campaign_listing campaign_list s.cout ++ "Select the Campaign to Accept...\n:" }
    (by simp [hcin])
  have hidx : ((k - 1) % 2 ^ 64).toNat = k.toNat - 1 := by
    have hk3 := hk.2.2
    simp only [INT_MAX] at hk3
    have : (k - 1) % 2 ^ 64 = k - 1 := Int.emod_eq_of_lt (by omega) (by norm_num; omega)
    rw [this]
    omega
  simp only [campaignSelection, if_neg (Nat.not_lt.mpr hN), list_campaign_ids_length,
    campaign_selection]
  simp only [campaign_listing] at hloop
  rw [hloop]
  simp only [hidx, list_campaign_ids, List.nil_append, List.getElem?_map,
    List.getElem?_eq_getElem hlt, Option.map_some']
  rfl

/-- The dialogue with two campaigns and the entries 7, 0, -3, 2. -/
theorem campaign_selector_accepts_first_valid_instance :
    ∃ c, [(⟨"id1", "n1", "d1"⟩ : Campaign), ⟨"id2", "n2", "d2"⟩][(2 : Int).toNat - 1]? = some c
      ∧ campaignSelection 5 [⟨"id1", "n1", "d1"⟩, ⟨"id2", "n2", "d2"⟩]
          (initial_state "7\n0\n-3\n2\nrest" [])
        = Outcome.no_return { initial_state "7\n0\n-3\n2\nrest" [] with
            cin := ⟨'\n' :: "rest".data, false, false⟩
            campaign_id_selected := c.id
            cout := campaign_listing [⟨"id1", "n1", "d1"⟩, ⟨"id2", "n2", "d2"⟩]
                (initial_state "7\n0\n-3\n2\nrest" []).cout
              ++ "Select the Campaign to Accept...\n:"
              ++ reprompts [(7 : Int), 0, -3].length ++ "Campaign Selected: " ++ c.id ++ "\n"
            calls := (initial_state "7\n0\n-3\n2\nrest" []).calls
              ++ [AgentCall.CampaignControl c.id Cmd.Accept] } :=
  (campaign_selector_accepts_first_valid [⟨"id1", "n1", "d1"⟩, ⟨"id2", "n2", "d2"⟩]
    (initial_state "7\n0\n-3\n2\nrest" []) [7, 0, -3] 2 "rest".data 5
    (by decide) (by decide) (by decide) (by decide) (by decide)).1

end DemoApp
